import Mathlib

/-!
Verification of the up/down paper-trading engine (`main.py` of the
polymarket-15-min-strategy-papertrader).  The numeric model uses exact
rationals (ℚ) for prices, sizes, share counts and USD amounts; the
literal `1e-9` tolerances of the source are kept as the exact rational
`1/10^9`.  Order books, accounts and the per-market engine state are
embedded as explicit data; the stateful Python methods become pure
functions from state to state.  The `_hedge_chunks` while-loop is
embedded with an explicit fuel parameter together with a boolean flag
recording whether the loop exited through one of its own break/guard
conditions (`true`) or only because the fuel ran out (`false`).
-/

/-- The literal `1e-9` used by the source as a tolerance. -/
def eps : ℚ := 1/1000000000

/-- `clamp(n, lo, hi) = max(lo, min(hi, n))` from the source. -/
def clamp (n lo hi : ℚ) : ℚ := max lo (min hi n)

/-- A position: shares held and their total USD cost basis. -/
structure Position where
  shares : ℚ
  cost_usd : ℚ
deriving DecidableEq, Repr

/-- `Position.avg_price`: cost/shares, or 0 when no shares are held. -/
def Position.avg_price (p : Position) : ℚ :=
  if p.shares ≤ 0 then 0 else p.cost_usd / p.shares

/-- An order book: bid and ask ladders as (price, size) pairs.  The store
sorts bids descending and asks ascending before installing a book. -/
structure OrderBook where
  bids : List (ℚ × ℚ)
  asks : List (ℚ × ℚ)
deriving DecidableEq, Repr

/-- Best (first) bid price, if any. -/
def OrderBook.best_bid (ob : OrderBook) : Option ℚ := ob.bids.head?.map Prod.fst

/-- Best (first) ask price, if any. -/
def OrderBook.best_ask (ob : OrderBook) : Option ℚ := ob.asks.head?.map Prod.fst

/-- First-match lookup in an association list (Python dict lookup). -/
def alist_find {α : Type} : List (String × α) → String → Option α
  | [], _ => none
  | (k', v) :: rest, k => if k' = k then some v else alist_find rest k

/-- `positions.get(token_id, Position())` from the source. -/
def posGet (l : List (String × Position)) (k : String) : Position :=
  (alist_find l k).getD ⟨0, 0⟩

/-- `positions[token_id] = pos`: update the existing key in place, else
append — Python dict assignment with insertion order preserved. -/
def posSet : List (String × Position) → String → Position → List (String × Position)
  | [], k, v => [(k, v)]
  | (k', v') :: rest, k, v =>
    if k' = k then (k, v) :: rest else (k', v') :: posSet rest k v

/-- The loop body of `consume_asks_for_buy`: walk the ask levels in list
order carrying (remaining budget, shares, spent); break once the
remaining budget is within the `1e-9` tolerance, skip non-positive
prices and empty levels, and at each level consume
`min(size, remaining/price)` shares. -/
def consumeLoop : List (ℚ × ℚ) → ℚ → ℚ → ℚ → ℚ × ℚ × ℚ
  | [], remaining, shares, spent => (remaining, shares, spent)
  | (price, size) :: rest, remaining, shares, spent =>
    if remaining ≤ eps then (remaining, shares, spent)
    else if price ≤ 0 then consumeLoop rest remaining shares spent
    else
      let maxSharesHere := min size (remaining / price)
      if maxSharesHere ≤ 0 then consumeLoop rest remaining shares spent
      else
        let costHere := maxSharesHere * price
        consumeLoop rest (remaining - costHere) (shares + maxSharesHere) (spent + costHere)

/-- `consume_asks_for_buy(ob, usd)` returns `(shares, avg, spent)`. -/
def consume_asks_for_buy (ob : OrderBook) (usd_to_spend : ℚ) : ℚ × ℚ × ℚ :=
  let r := consumeLoop ob.asks usd_to_spend 0 0
  let shares := r.2.1
  let spent := r.2.2
  let avg := if shares > 0 then spent / shares else 0
  (shares, avg, spent)

/-- The configuration fields of `StrategyConfig` used by the decision
engine, with the source's default values. -/
structure StrategyConfig where
  buy_chunk_usd : ℚ := 1
  max_side_spend_usd : ℚ := 4
  require_free_cash : ℚ := 5/100
  entry_ask_cents : ℚ := 35
  dca_step_cents : ℚ := 5
  dca_levels : ℕ := 3
  sum_cap_dollars : ℚ := 99/100
  expensive_min : ℚ := 73/100
  cheap_max : ℚ := 22/100
  spread_sum_cap : ℚ := 1
  settle_signal_bid : ℚ := 99/100
deriving DecidableEq, Repr

/-- The configuration with all defaults, as built by `StrategyConfig()`. -/
def defaultConfig : StrategyConfig := {}

/-- One simulated fill record (the numeric and identifying fields of the
source's `Fill`; the timestamp and market labels are runtime strings). -/
structure Fill where
  token_id : String
  side : String
  price : ℚ
  shares : ℚ
  usd : ℚ
  note : String
deriving DecidableEq, Repr

/-- A paper account: symbol, cash and the token-id → position map. -/
structure PaperAccount where
  symbol : String
  cash : ℚ
  positions : List (String × Position)
deriving DecidableEq, Repr

/-- The two outcome sides of a market. -/
inductive Side
  | UP
  | DOWN
deriving DecidableEq, Repr

/-- An active market: the pair of outcome token ids (the other fields of
the source's `ActiveMarket` are labels and the end time). -/
structure ActiveMarket where
  up_token : String
  down_token : String
deriving DecidableEq, Repr

/-- Per-market scratch state of `UpDownStrategyEngine`. -/
structure EngineState where
  primary : Option Side
  up_threshold : ℚ
  down_threshold : ℚ
  up_buys : ℕ
  down_buys : ℕ
deriving DecidableEq, Repr

/-- `next_dca_threshold[side]`. -/
def EngineState.threshold (st : EngineState) : Side → ℚ
  | Side.UP => st.up_threshold
  | Side.DOWN => st.down_threshold

/-- Store a new DCA threshold for one side. -/
def EngineState.setThreshold (st : EngineState) : Side → ℚ → EngineState
  | Side.UP, v => { st with up_threshold := v }
  | Side.DOWN, v => { st with down_threshold := v }

/-- `dca_buys_done[side]`. -/
def EngineState.buysDone (st : EngineState) : Side → ℕ
  | Side.UP => st.up_buys
  | Side.DOWN => st.down_buys

/-- `dca_buys_done[side] += 1`. -/
def EngineState.incrBuys (st : EngineState) : Side → EngineState
  | Side.UP => { st with up_buys := st.up_buys + 1 }
  | Side.DOWN => { st with down_buys := st.down_buys + 1 }

/-- `reset_for_new_market`: no primary, both thresholds at the entry
price, zero DCA counters. -/
def reset_for_new_market (cfg : StrategyConfig) : EngineState :=
  ⟨none, cfg.entry_ask_cents / 100, cfg.entry_ask_cents / 100, 0, 0⟩

/-- `_maybe_buy`: reject when the budget is non-positive, when free cash
is insufficient (`cash < usd + require_free_cash`), or when walking the
ask book yields no shares / no spend; otherwise debit cash by the spent
amount, credit the token's position and emit one `Fill`. -/
def maybe_buy (cfg : StrategyConfig) (token_id : String) (ob : OrderBook)
    (acct : PaperAccount) (usd : ℚ) (note : String) : PaperAccount × Option Fill :=
  if usd ≤ 0 then (acct, none)
  else if acct.cash < usd + cfg.require_free_cash then (acct, none)
  else
    let r := consume_asks_for_buy ob usd
    let shares := r.1
    let avg := r.2.1
    let spent := r.2.2
    if shares ≤ 0 ∨ spent ≤ 0 then (acct, none)
    else
      let pos := posGet acct.positions token_id
      ({ symbol := acct.symbol,
         cash := acct.cash - spent,
         positions := posSet acct.positions token_id
           ⟨pos.shares + shares, pos.cost_usd + spent⟩ },
       some { token_id := token_id, side := ("BUY"), price := avg,
              shares := shares, usd := spent, note := note })

/-- `_dca_if_trigger`: skip when the side's cost has reached the per-side
spend cap; when the best ask is at or below the side's next threshold and
the DCA counter has not passed `dca_levels`, attempt one fixed-USD buy,
advance the counter and lower the threshold by the cents-step, clamped to
[0.01, 0.99]. -/
def dca_if_trigger (cfg : StrategyConfig) (side_label : Side) (token_id : String)
    (ob : OrderBook) (best_ask : ℚ) (st : EngineState) (acct : PaperAccount) :
    EngineState × PaperAccount × Option Fill :=
  let pos := posGet acct.positions token_id
  if pos.cost_usd ≥ cfg.max_side_spend_usd then (st, acct, none)
  else
    let threshold := st.threshold side_label
    if best_ask ≤ threshold then
      if st.buysDone side_label ≤ cfg.dca_levels then
        let r := maybe_buy cfg token_id ob acct cfg.buy_chunk_usd ("entry_or_dca")
        ((st.incrBuys side_label).setThreshold side_label
           (clamp (threshold - cfg.dca_step_cents / 100) (1/100) (99/100)),
         r.1, r.2)
      else (st, acct, none)
    else (st, acct, none)

/-- The body of the `while` loop of `_hedge_chunks`, with explicit fuel.
Returns the account, the fills performed, and `true` exactly when the
loop exited through one of its own conditions (guard false or a
`break`), `false` when only the fuel ran out.  After a buy, both
positions are re-fetched from the account, as in the source. -/
def hedge_chunks_go (cfg : StrategyConfig) (primary_token hedge_token : String)
    (hedge_ob : OrderBook) :
    ℕ → Position → Position → PaperAccount → PaperAccount × List Fill × Bool
  | 0, _, _, acct => (acct, [], false)
  | fuel + 1, primary_pos, hedge_pos, acct =>
    if hedge_pos.cost_usd + eps < primary_pos.cost_usd then
      if hedge_pos.cost_usd ≥ cfg.max_side_spend_usd then (acct, [], true)
      else
        let est := consume_asks_for_buy hedge_ob cfg.buy_chunk_usd
        if est.1 ≤ 0 ∨ est.2.2 ≤ 0 then (acct, [], true)
        else if primary_pos.avg_price + est.2.1 ≥ cfg.sum_cap_dollars then (acct, [], true)
        else
          let r := maybe_buy cfg hedge_token hedge_ob acct cfg.buy_chunk_usd
            ("hedge_chunk_sumcap_ok")
          let rest := hedge_chunks_go cfg primary_token hedge_token hedge_ob fuel
            (posGet r.1.positions primary_token) (posGet r.1.positions hedge_token) r.1
          (rest.1, r.2.toList ++ rest.2.1, rest.2.2)
    else (acct, [], true)

/-- `_hedge_chunks`: return at once when the hedge ask is above the entry
threshold, else run the accumulation loop. -/
def hedge_chunks (cfg : StrategyConfig) (primary_token hedge_token : String)
    (primary_pos hedge_pos : Position) (hedge_ob : OrderBook) (hedge_ask : ℚ)
    (acct : PaperAccount) (fuel : ℕ) : PaperAccount × List Fill × Bool :=
  if hedge_ask > cfg.entry_ask_cents / 100 then (acct, [], true)
  else hedge_chunks_go cfg primary_token hedge_token hedge_ob fuel primary_pos hedge_pos acct

/-- The primary-selection block at the top of `_step_threshold35`: when no
primary side is set yet, UP becomes primary if its ask is at or below the
entry threshold, else DOWN if its ask is (UP checked first). -/
def choose_primary (cfg : StrategyConfig) (up_ask down_ask : ℚ) (st : EngineState) :
    EngineState :=
  match st.primary with
  | none =>
    if up_ask ≤ cfg.entry_ask_cents / 100 then { st with primary := some Side.UP }
    else if down_ask ≤ cfg.entry_ask_cents / 100 then { st with primary := some Side.DOWN }
    else st
  | some _ => st

/-- The DCA block of `_step_threshold35`: run `_dca_if_trigger` on the
primary side, if one is set. -/
def dca_phase (cfg : StrategyConfig) (mkt : ActiveMarket) (up_ob down_ob : OrderBook)
    (up_ask down_ask : ℚ) (st1 : EngineState) (acct : PaperAccount) :
    EngineState × PaperAccount :=
  match st1.primary with
  | some Side.UP =>
    let r := dca_if_trigger cfg Side.UP mkt.up_token up_ob up_ask st1 acct
    (r.1, r.2.1)
  | some Side.DOWN =>
    let r := dca_if_trigger cfg Side.DOWN mkt.down_token down_ob down_ask st1 acct
    (r.1, r.2.1)
  | none => (st1, acct)

/-- The hedge block of `_step_threshold35`: once the primary side holds
any cost, run `_hedge_chunks` against the opposite side. -/
def hedge_phase (cfg : StrategyConfig) (mkt : ActiveMarket) (up_ob down_ob : OrderBook)
    (up_ask down_ask : ℚ) (st2 : EngineState) (acct2 : PaperAccount) (fuel : ℕ) :
    PaperAccount :=
  let up_pos := posGet acct2.positions mkt.up_token
  let down_pos := posGet acct2.positions mkt.down_token
  match st2.primary with
  | some Side.UP =>
    if up_pos.cost_usd > 0 then
      (hedge_chunks cfg mkt.up_token mkt.down_token up_pos down_pos down_ob down_ask acct2 fuel).1
    else acct2
  | some Side.DOWN =>
    if down_pos.cost_usd > 0 then
      (hedge_chunks cfg mkt.down_token mkt.up_token down_pos up_pos up_ob up_ask acct2 fuel).1
    else acct2
  | none => acct2

/-- `_step_threshold35`: choose a primary side when none is set, run the
DCA trigger on the primary side, then — once the primary side holds any
cost — run hedge accumulation on the opposite side. -/
def step_threshold35 (cfg : StrategyConfig) (mkt : ActiveMarket)
    (up_ob down_ob : OrderBook) (up_ask down_ask : ℚ)
    (st : EngineState) (acct : PaperAccount) (fuel : ℕ) : EngineState × PaperAccount :=
  let st1 := choose_primary cfg up_ask down_ask st
  let r2 := dca_phase cfg mkt up_ob down_ob up_ask down_ask st1 acct
  (r2.1, hedge_phase cfg mkt up_ob down_ob up_ask down_ask r2.1 r2.2 fuel)

/-- `_step_spread73_22`: when one side is expensive, the other cheap and
the ask sum below the spread cap, buy one fixed-USD chunk on each side. -/
def step_spread73_22 (cfg : StrategyConfig) (mkt : ActiveMarket)
    (up_ob down_ob : OrderBook) (up_ask down_ask : ℚ)
    (acct : PaperAccount) : PaperAccount :=
  let acct1 :=
    if up_ask ≥ cfg.expensive_min ∧ down_ask ≤ cfg.cheap_max ∧
        up_ask + down_ask < cfg.spread_sum_cap then
      let a := (maybe_buy cfg mkt.up_token up_ob acct cfg.buy_chunk_usd ("spread73_22_up_exp")).1
      (maybe_buy cfg mkt.down_token down_ob a cfg.buy_chunk_usd ("spread73_22_down_cheap")).1
    else acct
  if down_ask ≥ cfg.expensive_min ∧ up_ask ≤ cfg.cheap_max ∧
      down_ask + up_ask < cfg.spread_sum_cap then
    let a := (maybe_buy cfg mkt.down_token down_ob acct1 cfg.buy_chunk_usd ("spread73_22_down_exp")).1
    (maybe_buy cfg mkt.up_token up_ob a cfg.buy_chunk_usd ("spread73_22_up_cheap")).1
  else acct1

/-- The configured strategy mode. -/
inductive Mode
  | threshold35
  | spread73_22
deriving DecidableEq, Repr

/-- `UpDownStrategyEngine.step`: no-op unless both books have a best bid
and a best ask, else dispatch on the configured mode. -/
def step (cfg : StrategyConfig) (mode : Mode) (mkt : ActiveMarket)
    (up_ob down_ob : OrderBook) (st : EngineState) (acct : PaperAccount)
    (fuel : ℕ) : EngineState × PaperAccount :=
  match up_ob.best_ask, down_ob.best_ask, up_ob.best_bid, down_ob.best_bid with
  | some up_ask, some down_ask, some _, some _ =>
    match mode with
    | Mode.threshold35 => step_threshold35 cfg mkt up_ob down_ob up_ask down_ask st acct fuel
    | Mode.spread73_22 => (st, step_spread73_22 cfg mkt up_ob down_ob up_ask down_ask acct)
  | _, _, _, _ => (st, acct)

/-- `pick_winner_from_book`: `None` unless both best bids exist; UP when
the UP best bid reaches the settlement signal, else DOWN when the DOWN
best bid does, else `None`. -/
def pick_winner_from_book (up_ob down_ob : OrderBook) (settle_signal_bid : ℚ) : Option Side :=
  match up_ob.best_bid, down_ob.best_bid with
  | some ub, some db =>
    if ub ≥ settle_signal_bid then some Side.UP
    else if db ≥ settle_signal_bid then some Side.DOWN
    else none
  | _, _ => none

/-- `force_pick_winner`: missing bids count as 0.0; the strictly higher
best bid wins and an exact tie resolves to UP. -/
def force_pick_winner (up_ob down_ob : OrderBook) : Side :=
  let ub := up_ob.best_bid.getD 0
  let db := down_ob.best_bid.getD 0
  if ub > db then Side.UP
  else if db > ub then Side.DOWN
  else Side.UP

/-- The winner decision of `settle_market` against one (static) pair of
books: the signalled winner when the signal poll finds one, else — the
timed-out case — the forced comparison of best bids. -/
def settle_decide (up_ob down_ob : OrderBook) (settle_signal_bid : ℚ) : Side :=
  match pick_winner_from_book up_ob down_ob settle_signal_bid with
  | some w => w
  | none => force_pick_winner up_ob down_ob

/-- The settlement record written by `settle_market` (its numeric
fields). -/
structure MarketResult where
  winner : Side
  up_shares : ℚ
  down_shares : ℚ
  up_cost : ℚ
  down_cost : ℚ
  pnl : ℚ
  balance_after : ℚ
deriving DecidableEq, Repr

/-- The account mutation of `settle_market` for a decided winner: redeem
the winning side's pre-settlement shares at 1.0 USD each, zero both
positions, and record pnl = redemption − (UP cost + DOWN cost). -/
def settle_market (mkt : ActiveMarket) (winner : Side) (acct : PaperAccount) :
    PaperAccount × MarketResult :=
  let up_pos := posGet acct.positions mkt.up_token
  let down_pos := posGet acct.positions mkt.down_token
  let redeem := (if winner = Side.UP then up_pos.shares else down_pos.shares) * 1
  let cash1 := acct.cash + redeem
  let positions1 := posSet (posSet acct.positions mkt.up_token ⟨0, 0⟩) mkt.down_token ⟨0, 0⟩
  let pnl := redeem - (up_pos.cost_usd + down_pos.cost_usd)
  ({ symbol := acct.symbol, cash := cash1, positions := positions1 },
   { winner := winner, up_shares := up_pos.shares, down_shares := down_pos.shares,
     up_cost := up_pos.cost_usd, down_cost := down_pos.cost_usd,
     pnl := pnl, balance_after := cash1 })

/-- The serialized form of one account in the state file
(`PaperAccount.to_dict`). -/
structure AccountBlob where
  symbol : String
  cash : ℚ
  positions : List (String × Position)
deriving DecidableEq, Repr

/-- `PaperAccount.to_dict`. -/
def to_dict (a : PaperAccount) : AccountBlob :=
  { symbol := a.symbol, cash := a.cash, positions := a.positions }

/-- `PaperAccount.from_dict`: an empty saved symbol falls back to the
default symbol; positions are rebuilt by inserting every saved entry into
a fresh dict. -/
def from_dict (d : AccountBlob) (default_symbol : String) (_default_balance : ℚ) :
    PaperAccount :=
  { symbol := if d.symbol = ("") then default_symbol else d.symbol,
    cash := d.cash,
    positions := d.positions.foldl (fun m kv => posSet m kv.1 kv.2) [] }

/-- The `accounts` object of the durable state file. -/
def save_state (accounts : List (String × PaperAccount)) : List (String × AccountBlob) :=
  accounts.map (fun sa => (sa.1, to_dict sa.2))

/-- `load_state`: one account per configured symbol; a saved entry is
deserialized with `from_dict`, a missing one gets the starting balance
(given as a total map with the source's 100.0 default folded in). -/
def load_state (symbols : List String) (start_balances : String → ℚ)
    (blob : Option (List (String × AccountBlob))) : List (String × PaperAccount) :=
  symbols.map (fun sym =>
    (sym,
      match blob with
      | none => { symbol := sym, cash := start_balances sym, positions := [] }
      | some b =>
        match alist_find b sym with
        | some d => from_dict d sym (start_balances sym)
        | none => { symbol := sym, cash := start_balances sym, positions := [] }))


theorem consumeLoop_cons (price size : ℚ) (tl : List (ℚ × ℚ)) (r sh sp : ℚ) :
    consumeLoop ((price, size) :: tl) r sh sp =
      if r ≤ eps then (r, sh, sp)
      else if price ≤ 0 then consumeLoop tl r sh sp
      else if min size (r / price) ≤ 0 then consumeLoop tl r sh sp
      else consumeLoop tl (r - min size (r / price) * price)
        (sh + min size (r / price)) (sp + min size (r / price) * price) := rfl

theorem consumeLoop_spent_add (l : List (ℚ × ℚ)) : ∀ (r sh sp : ℚ),
    (consumeLoop l r sh sp).2.2 + (consumeLoop l r sh sp).1 = sp + r := by
  induction l with
  | nil => intro r sh sp; simp only [consumeLoop]
  | cons hd tl ih =>
    obtain ⟨price, size⟩ := hd
    intro r sh sp
    rw [consumeLoop_cons]
    by_cases h1 : r ≤ eps
    · rw [if_pos h1]
    · rw [if_neg h1]
      by_cases h2 : price ≤ 0
      · rw [if_pos h2]; exact ih r sh sp
      · rw [if_neg h2]
        by_cases h3 : min size (r / price) ≤ 0
        · rw [if_pos h3]; exact ih r sh sp
        · rw [if_neg h3]
          have h := ih (r - min size (r / price) * price) (sh + min size (r / price))
            (sp + min size (r / price) * price)
          linarith [h]

theorem consumeLoop_remaining_le (l : List (ℚ × ℚ)) : ∀ (r sh sp : ℚ),
    (consumeLoop l r sh sp).1 ≤ r := by
  induction l with
  | nil => intro r sh sp; simp only [consumeLoop]; exact le_refl r
  | cons hd tl ih =>
    obtain ⟨price, size⟩ := hd
    intro r sh sp
    rw [consumeLoop_cons]
    by_cases h1 : r ≤ eps
    · rw [if_pos h1]
    · rw [if_neg h1]
      by_cases h2 : price ≤ 0
      · rw [if_pos h2]; exact ih r sh sp
      · rw [if_neg h2]
        by_cases h3 : min size (r / price) ≤ 0
        · rw [if_pos h3]; exact ih r sh sp
        · rw [if_neg h3]
          have hm : 0 < min size (r / price) := lt_of_not_le h3
          have hp : 0 < price := lt_of_not_le h2
          have hc : 0 < min size (r / price) * price := mul_pos hm hp
          have h := ih (r - min size (r / price) * price) (sh + min size (r / price))
            (sp + min size (r / price) * price)
          linarith [h]

theorem consumeLoop_remaining_nonneg (l : List (ℚ × ℚ)) : ∀ (r sh sp : ℚ),
    0 ≤ r → 0 ≤ (consumeLoop l r sh sp).1 := by
  induction l with
  | nil => intro r sh sp hr; simpa only [consumeLoop] using hr
  | cons hd tl ih =>
    obtain ⟨price, size⟩ := hd
    intro r sh sp hr
    rw [consumeLoop_cons]
    by_cases h1 : r ≤ eps
    · rw [if_pos h1]; exact hr
    · rw [if_neg h1]
      by_cases h2 : price ≤ 0
      · rw [if_pos h2]; exact ih r sh sp hr
      · rw [if_neg h2]
        by_cases h3 : min size (r / price) ≤ 0
        · rw [if_pos h3]; exact ih r sh sp hr
        · rw [if_neg h3]
          have hp : 0 < price := lt_of_not_le h2
          have hcost : min size (r / price) * price ≤ r := by
            have hle : min size (r / price) ≤ r / price := min_le_right _ _
            calc min size (r / price) * price ≤ (r / price) * price :=
              mul_le_mul_of_nonneg_right hle (le_of_lt hp)
            _ = r := by field_simp
          exact ih _ _ _ (by linarith)

theorem consumeLoop_acc (l : List (ℚ × ℚ)) : ∀ (r sh sp : ℚ),
    ((consumeLoop l r sh sp).2.1 = sh ∧ (consumeLoop l r sh sp).2.2 = sp) ∨
    (sh < (consumeLoop l r sh sp).2.1 ∧ sp < (consumeLoop l r sh sp).2.2) := by
  induction l with
  | nil => intro r sh sp; left; exact ⟨rfl, rfl⟩
  | cons hd tl ih =>
    obtain ⟨price, size⟩ := hd
    intro r sh sp
    rw [consumeLoop_cons]
    by_cases h1 : r ≤ eps
    · rw [if_pos h1]; left; exact ⟨rfl, rfl⟩
    · rw [if_neg h1]
      by_cases h2 : price ≤ 0
      · rw [if_pos h2]; exact ih r sh sp
      · rw [if_neg h2]
        by_cases h3 : min size (r / price) ≤ 0
        · rw [if_pos h3]; exact ih r sh sp
        · rw [if_neg h3]
          have hm : 0 < min size (r / price) := lt_of_not_le h3
          have hp : 0 < price := lt_of_not_le h2
          have hc : 0 < min size (r / price) * price := mul_pos hm hp
          have h := ih (r - min size (r / price) * price) (sh + min size (r / price))
            (sp + min size (r / price) * price)
          rcases h with ⟨ha, hb⟩ | ⟨ha, hb⟩
          · right; rw [ha, hb]; exact ⟨by linarith, by linarith⟩
          · right; exact ⟨by linarith, by linarith⟩

theorem consumeLoop_stop (l : List (ℚ × ℚ)) (r sh sp : ℚ) (h : r ≤ eps) :
    consumeLoop l r sh sp = (r, sh, sp) := by
  cases l with
  | nil => rfl
  | cons hd tl => obtain ⟨price, size⟩ := hd; rw [consumeLoop_cons, if_pos h]

theorem consume_shares_nonneg (ob : OrderBook) (usd : ℚ) :
    0 ≤ (consume_asks_for_buy ob usd).1 := by
  have h := consumeLoop_acc ob.asks usd 0 0
  rcases h with ⟨ha, _⟩ | ⟨ha, _⟩
  · simp only [consume_asks_for_buy]; rw [ha]
  · simp only [consume_asks_for_buy]; linarith

theorem consume_spent_nonneg (ob : OrderBook) (usd : ℚ) :
    0 ≤ (consume_asks_for_buy ob usd).2.2 := by
  have h := consumeLoop_acc ob.asks usd 0 0
  rcases h with ⟨_, hb⟩ | ⟨_, hb⟩
  · simp only [consume_asks_for_buy]; rw [hb]
  · simp only [consume_asks_for_buy]; linarith

theorem consume_shares_zero_iff (ob : OrderBook) (usd : ℚ) :
    (consume_asks_for_buy ob usd).1 = 0 ↔ (consume_asks_for_buy ob usd).2.2 = 0 := by
  have h := consumeLoop_acc ob.asks usd 0 0
  simp only [consume_asks_for_buy]
  rcases h with ⟨ha, hb⟩ | ⟨ha, hb⟩
  · rw [ha, hb]
  · constructor
    · intro hz; linarith
    · intro hz; linarith

theorem consume_spent_le (ob : OrderBook) (usd : ℚ) (h : 0 ≤ usd) :
    (consume_asks_for_buy ob usd).2.2 ≤ usd := by
  have hadd := consumeLoop_spent_add ob.asks usd 0 0
  have hnn := consumeLoop_remaining_nonneg ob.asks usd 0 0 h
  simp only [consume_asks_for_buy]
  linarith

theorem consume_shares_ne_usd_gt (ob : OrderBook) (usd : ℚ)
    (h : (consume_asks_for_buy ob usd).1 ≠ 0) : eps < usd := by
  by_contra hle
  push_neg at hle
  have := consumeLoop_stop ob.asks usd 0 0 hle
  apply h
  simp only [consume_asks_for_buy, this]

theorem consume_avg_eq (ob : OrderBook) (usd : ℚ)
    (h : 0 < (consume_asks_for_buy ob usd).1) :
    (consume_asks_for_buy ob usd).2.1 =
      (consume_asks_for_buy ob usd).2.2 / (consume_asks_for_buy ob usd).1 := by
  simp only [consume_asks_for_buy] at h ⊢
  rw [if_pos h]

theorem posGet_posSet_self (l : List (String × Position)) (k : String) (v : Position) :
    posGet (posSet l k v) k = v := by
  induction l with
  | nil => simp [posGet, posSet, alist_find]
  | cons hd tl ih =>
    obtain ⟨k', v'⟩ := hd
    by_cases h : k' = k
    · simp [posGet, posSet, alist_find, h]
    · simp only [posSet, if_neg h]
      simpa [posGet, alist_find, h] using ih

theorem posGet_posSet_ne (l : List (String × Position)) (k k' : String) (v : Position)
    (h : k ≠ k') : posGet (posSet l k v) k' = posGet l k' := by
  induction l with
  | nil => simp [posGet, posSet, alist_find, h]
  | cons hd tl ih =>
    obtain ⟨k0, v0⟩ := hd
    by_cases h0 : k0 = k
    · subst h0
      simp [posGet, posSet, alist_find, h]
    · simp only [posSet, if_neg h0]
      by_cases h1 : k0 = k'
      · simp [posGet, alist_find, h1]
      · simpa [posGet, alist_find, h1] using ih

theorem maybe_buy_none_noop (cfg : StrategyConfig) (token_id : String) (ob : OrderBook)
    (acct : PaperAccount) (usd : ℚ) (note : String)
    (h : (maybe_buy cfg token_id ob acct usd note).2 = none) :
    (maybe_buy cfg token_id ob acct usd note).1 = acct := by
  by_cases h1 : usd ≤ 0
  · simp [maybe_buy, h1]
  · by_cases h2 : acct.cash < usd + cfg.require_free_cash
    · simp [maybe_buy, h1, h2]
    · by_cases h3 : (consume_asks_for_buy ob usd).1 ≤ 0 ∨ (consume_asks_for_buy ob usd).2.2 ≤ 0
      · simp [maybe_buy, h1, h2, h3]
      · exfalso
        simp [maybe_buy, h1, h2, h3] at h

theorem maybe_buy_none_of_cash (cfg : StrategyConfig) (token_id : String) (ob : OrderBook)
    (acct : PaperAccount) (usd : ℚ) (note : String)
    (h : acct.cash < usd + cfg.require_free_cash) :
    maybe_buy cfg token_id ob acct usd note = (acct, none) := by
  by_cases h1 : usd ≤ 0
  · simp [maybe_buy, h1]
  · simp [maybe_buy, h1, h]

theorem maybe_buy_none_of_zero_shares (cfg : StrategyConfig) (token_id : String)
    (ob : OrderBook) (acct : PaperAccount) (usd : ℚ) (note : String)
    (h : (consume_asks_for_buy ob usd).1 = 0) :
    maybe_buy cfg token_id ob acct usd note = (acct, none) := by
  by_cases h1 : usd ≤ 0
  · simp [maybe_buy, h1]
  · by_cases h2 : acct.cash < usd + cfg.require_free_cash
    · simp [maybe_buy, h1, h2]
    · have h3 : (consume_asks_for_buy ob usd).1 ≤ 0 ∨ (consume_asks_for_buy ob usd).2.2 ≤ 0 :=
        Or.inl (le_of_eq h)
      simp [maybe_buy, h1, h2, h3]

theorem maybe_buy_pos_eq (cfg : StrategyConfig) (token_id : String) (ob : OrderBook)
    (acct : PaperAccount) (usd : ℚ) (note : String)
    (hcash : ¬ acct.cash < usd + cfg.require_free_cash)
    (hsh : (consume_asks_for_buy ob usd).1 ≠ 0) :
    maybe_buy cfg token_id ob acct usd note =
      ({ symbol := acct.symbol,
         cash := acct.cash - (consume_asks_for_buy ob usd).2.2,
         positions := posSet acct.positions token_id
           ⟨(posGet acct.positions token_id).shares + (consume_asks_for_buy ob usd).1,
            (posGet acct.positions token_id).cost_usd + (consume_asks_for_buy ob usd).2.2⟩ },
       some { token_id := token_id, side := ("BUY"),
              price := (consume_asks_for_buy ob usd).2.1,
              shares := (consume_asks_for_buy ob usd).1,
              usd := (consume_asks_for_buy ob usd).2.2, note := note }) := by
  have husd : ¬ usd ≤ 0 := by
    have := consume_shares_ne_usd_gt ob usd hsh
    have heps : (0 : ℚ) < eps := by norm_num [eps]
    intro hc; linarith
  have hshpos : 0 < (consume_asks_for_buy ob usd).1 :=
    lt_of_le_of_ne (consume_shares_nonneg ob usd) (Ne.symm hsh)
  have hsppos : 0 < (consume_asks_for_buy ob usd).2.2 := by
    rcases lt_or_eq_of_le (consume_spent_nonneg ob usd) with h | h
    · exact h
    · exfalso; exact hsh ((consume_shares_zero_iff ob usd).mpr h.symm)
  have h3 : ¬ ((consume_asks_for_buy ob usd).1 ≤ 0 ∨ (consume_asks_for_buy ob usd).2.2 ≤ 0) := by
    push_neg; exact ⟨hshpos, hsppos⟩
  simp [maybe_buy, husd, hcash, h3]

theorem maybe_buy_cases (cfg : StrategyConfig) (token_id : String) (ob : OrderBook)
    (acct : PaperAccount) (usd : ℚ) (note : String) :
    maybe_buy cfg token_id ob acct usd note = (acct, none) ∨
    (¬ acct.cash < usd + cfg.require_free_cash ∧ (consume_asks_for_buy ob usd).1 ≠ 0) := by
  by_cases hcash : acct.cash < usd + cfg.require_free_cash
  · exact Or.inl (maybe_buy_none_of_cash cfg token_id ob acct usd note hcash)
  · by_cases hsh : (consume_asks_for_buy ob usd).1 = 0
    · exact Or.inl (maybe_buy_none_of_zero_shares cfg token_id ob acct usd note hsh)
    · exact Or.inr ⟨hcash, hsh⟩

theorem maybe_buy_cash_nonneg (cfg : StrategyConfig) (token_id : String) (ob : OrderBook)
    (acct : PaperAccount) (usd : ℚ) (note : String)
    (hres : 0 ≤ cfg.require_free_cash) (hc : 0 ≤ acct.cash) :
    0 ≤ (maybe_buy cfg token_id ob acct usd note).1.cash := by
  rcases maybe_buy_cases cfg token_id ob acct usd note with h | ⟨hcash, hsh⟩
  · rw [h]; exact hc
  · rw [maybe_buy_pos_eq cfg token_id ob acct usd note hcash hsh]
    have husd : 0 < usd := by
      have := consume_shares_ne_usd_gt ob usd hsh
      have heps : (0 : ℚ) < eps := by norm_num [eps]
      linarith
    have hsp := consume_spent_le ob usd (le_of_lt husd)
    push_neg at hcash
    simp only
    linarith

theorem maybe_buy_cash_lb (cfg : StrategyConfig) (token_id : String) (ob : OrderBook)
    (acct : PaperAccount) (usd : ℚ) (note : String) (husd : 0 ≤ usd) :
    acct.cash - usd ≤ (maybe_buy cfg token_id ob acct usd note).1.cash := by
  rcases maybe_buy_cases cfg token_id ob acct usd note with h | ⟨hcash, hsh⟩
  · rw [h]; simp only; linarith
  · rw [maybe_buy_pos_eq cfg token_id ob acct usd note hcash hsh]
    have hsp := consume_spent_le ob usd husd
    simp only
    linarith

theorem maybe_buy_requires_cash (cfg : StrategyConfig) (token_id : String) (ob : OrderBook)
    (acct : PaperAccount) (usd : ℚ) (note : String)
    (h : ((maybe_buy cfg token_id ob acct usd note).2).isSome) :
    usd + cfg.require_free_cash ≤ acct.cash := by
  rcases maybe_buy_cases cfg token_id ob acct usd note with heq | ⟨hcash, _⟩
  · rw [heq] at h; simp at h
  · exact le_of_not_lt hcash

theorem maybe_buy_positions_ne (cfg : StrategyConfig) (token_id other : String)
    (ob : OrderBook) (acct : PaperAccount) (usd : ℚ) (note : String)
    (h : token_id ≠ other) :
    posGet (maybe_buy cfg token_id ob acct usd note).1.positions other =
      posGet acct.positions other := by
  rcases maybe_buy_cases cfg token_id ob acct usd note with heq | ⟨hcash, hsh⟩
  · rw [heq]
  · rw [maybe_buy_pos_eq cfg token_id ob acct usd note hcash hsh]
    simp only
    exact posGet_posSet_ne acct.positions token_id other _ h

theorem hedge_chunks_go_cash_nonneg (cfg : StrategyConfig) (pt ht : String)
    (ob : OrderBook) :
    ∀ (fuel : ℕ) (pp hp : Position) (acct : PaperAccount),
    0 ≤ cfg.require_free_cash → 0 ≤ acct.cash →
    0 ≤ (hedge_chunks_go cfg pt ht ob fuel pp hp acct).1.cash := by
  intro fuel
  induction fuel with
  | zero => intro pp hp acct _ h2; exact h2
  | succ n ih =>
    intro pp hp acct h1 h2
    simp only [hedge_chunks_go]
    split_ifs with g1 g2 g3 g4
    · exact h2
    · exact h2
    · exact h2
    · exact ih _ _ _ h1 (maybe_buy_cash_nonneg cfg ht ob acct cfg.buy_chunk_usd _ h1 h2)
    · exact h2

theorem hedge_chunks_cash_nonneg (cfg : StrategyConfig) (pt ht : String)
    (pp hp : Position) (ob : OrderBook) (ask : ℚ) (acct : PaperAccount) (fuel : ℕ)
    (h1 : 0 ≤ cfg.require_free_cash) (h2 : 0 ≤ acct.cash) :
    0 ≤ (hedge_chunks cfg pt ht pp hp ob ask acct fuel).1.cash := by
  unfold hedge_chunks
  split_ifs with g
  · exact h2
  · exact hedge_chunks_go_cash_nonneg cfg pt ht ob fuel pp hp acct h1 h2

theorem dca_cash_nonneg (cfg : StrategyConfig) (side_label : Side) (token_id : String)
    (ob : OrderBook) (best_ask : ℚ) (st : EngineState) (acct : PaperAccount)
    (h1 : 0 ≤ cfg.require_free_cash) (h2 : 0 ≤ acct.cash) :
    0 ≤ (dca_if_trigger cfg side_label token_id ob best_ask st acct).2.1.cash := by
  simp only [dca_if_trigger]
  split_ifs with g1 g2 g3
  · exact h2
  · exact maybe_buy_cash_nonneg cfg token_id ob acct cfg.buy_chunk_usd _ h1 h2
  · exact h2
  · exact h2

theorem dca_phase_cash_nonneg (cfg : StrategyConfig) (mkt : ActiveMarket)
    (up_ob down_ob : OrderBook) (up_ask down_ask : ℚ) (st1 : EngineState)
    (acct : PaperAccount)
    (h1 : 0 ≤ cfg.require_free_cash) (h2 : 0 ≤ acct.cash) :
    0 ≤ (dca_phase cfg mkt up_ob down_ob up_ask down_ask st1 acct).2.cash := by
  unfold dca_phase
  rcases st1.primary with _ | side
  · exact h2
  · cases side
    · exact dca_cash_nonneg cfg Side.UP mkt.up_token up_ob up_ask st1 acct h1 h2
    · exact dca_cash_nonneg cfg Side.DOWN mkt.down_token down_ob down_ask st1 acct h1 h2

theorem hedge_phase_cash_nonneg (cfg : StrategyConfig) (mkt : ActiveMarket)
    (up_ob down_ob : OrderBook) (up_ask down_ask : ℚ) (st2 : EngineState)
    (acct2 : PaperAccount) (fuel : ℕ)
    (h1 : 0 ≤ cfg.require_free_cash) (h2 : 0 ≤ acct2.cash) :
    0 ≤ (hedge_phase cfg mkt up_ob down_ob up_ask down_ask st2 acct2 fuel).cash := by
  unfold hedge_phase
  rcases st2.primary with _ | side
  · exact h2
  · cases side
    · dsimp only
      split_ifs with g
      · exact hedge_chunks_cash_nonneg cfg _ _ _ _ _ _ _ _ h1 h2
      · exact h2
    · dsimp only
      split_ifs with g
      · exact hedge_chunks_cash_nonneg cfg _ _ _ _ _ _ _ _ h1 h2
      · exact h2

theorem step_threshold35_cash_nonneg (cfg : StrategyConfig) (mkt : ActiveMarket)
    (up_ob down_ob : OrderBook) (up_ask down_ask : ℚ) (st : EngineState)
    (acct : PaperAccount) (fuel : ℕ)
    (h1 : 0 ≤ cfg.require_free_cash) (h2 : 0 ≤ acct.cash) :
    0 ≤ (step_threshold35 cfg mkt up_ob down_ob up_ask down_ask st acct fuel).2.cash := by
  unfold step_threshold35
  exact hedge_phase_cash_nonneg cfg mkt up_ob down_ob up_ask down_ask _ _ fuel h1
    (dca_phase_cash_nonneg cfg mkt up_ob down_ob up_ask down_ask _ acct h1 h2)

theorem step_spread_cash_nonneg (cfg : StrategyConfig) (mkt : ActiveMarket)
    (up_ob down_ob : OrderBook) (up_ask down_ask : ℚ) (acct : PaperAccount)
    (h1 : 0 ≤ cfg.require_free_cash) (h2 : 0 ≤ acct.cash) :
    0 ≤ (step_spread73_22 cfg mkt up_ob down_ob up_ask down_ask acct).cash := by
  simp only [step_spread73_22]
  split_ifs with c1 c2 c3
  · exact maybe_buy_cash_nonneg _ _ _ _ _ _ h1 (maybe_buy_cash_nonneg _ _ _ _ _ _ h1
      (maybe_buy_cash_nonneg _ _ _ _ _ _ h1 (maybe_buy_cash_nonneg _ _ _ _ _ _ h1 h2)))
  · exact maybe_buy_cash_nonneg _ _ _ _ _ _ h1 (maybe_buy_cash_nonneg _ _ _ _ _ _ h1 h2)
  · exact maybe_buy_cash_nonneg _ _ _ _ _ _ h1 (maybe_buy_cash_nonneg _ _ _ _ _ _ h1 h2)
  · exact h2

theorem step_cash_nonneg (cfg : StrategyConfig) (mode : Mode) (mkt : ActiveMarket)
    (up_ob down_ob : OrderBook) (st : EngineState) (acct : PaperAccount) (fuel : ℕ)
    (h1 : 0 ≤ cfg.require_free_cash) (h2 : 0 ≤ acct.cash) :
    0 ≤ (step cfg mode mkt up_ob down_ob st acct fuel).2.cash := by
  unfold step
  split
  · cases mode
    · exact step_threshold35_cash_nonneg cfg mkt up_ob down_ob _ _ st acct fuel h1 h2
    · exact step_spread_cash_nonneg cfg mkt up_ob down_ob _ _ acct h1 h2
  · exact h2

theorem settle_cash_nonneg (mkt : ActiveMarket) (winner : Side) (acct : PaperAccount)
    (h2 : 0 ≤ acct.cash)
    (hup : 0 ≤ (posGet acct.positions mkt.up_token).shares)
    (hdown : 0 ≤ (posGet acct.positions mkt.down_token).shares) :
    0 ≤ (settle_market mkt winner acct).1.cash := by
  simp only [settle_market]
  cases winner <;> simp <;> linarith

theorem maybe_buy_some_eq (cfg : StrategyConfig) (token_id : String) (ob : OrderBook)
    (acct : PaperAccount) (usd : ℚ) (note : String) (f : Fill)
    (h : (maybe_buy cfg token_id ob acct usd note).2 = some f) :
    ¬ acct.cash < usd + cfg.require_free_cash ∧
    (consume_asks_for_buy ob usd).1 ≠ 0 ∧
    f = { token_id := token_id, side := ("BUY"),
          price := (consume_asks_for_buy ob usd).2.1,
          shares := (consume_asks_for_buy ob usd).1,
          usd := (consume_asks_for_buy ob usd).2.2, note := note } ∧
    (maybe_buy cfg token_id ob acct usd note).1 =
      { symbol := acct.symbol,
        cash := acct.cash - (consume_asks_for_buy ob usd).2.2,
        positions := posSet acct.positions token_id
          ⟨(posGet acct.positions token_id).shares + (consume_asks_for_buy ob usd).1,
           (posGet acct.positions token_id).cost_usd + (consume_asks_for_buy ob usd).2.2⟩ } := by
  rcases maybe_buy_cases cfg token_id ob acct usd note with heq | ⟨hcash, hsh⟩
  · rw [heq] at h; exact absurd h (by simp)
  · have he := maybe_buy_pos_eq cfg token_id ob acct usd note hcash hsh
    rw [he] at h
    simp only [Option.some.injEq] at h
    exact ⟨hcash, hsh, h.symm, by rw [he]⟩

theorem hedge_chunks_go_fills_cap (cfg : StrategyConfig) (pt ht : String) (ob : OrderBook)
    (hne : ht ≠ pt) :
    ∀ (fuel : ℕ) (pp hp : Position) (acct : PaperAccount),
    posGet acct.positions pt = pp →
    ∀ f ∈ (hedge_chunks_go cfg pt ht ob fuel pp hp acct).2.1,
      pp.avg_price + f.price < cfg.sum_cap_dollars := by
  intro fuel
  induction fuel with
  | zero => intro pp hp acct _ f hf; simp [hedge_chunks_go] at hf
  | succ n ih =>
    intro pp hp acct hp1 f hf
    simp only [hedge_chunks_go] at hf
    by_cases g1 : hp.cost_usd + eps < pp.cost_usd
    · rw [if_pos g1] at hf
      by_cases g2 : hp.cost_usd ≥ cfg.max_side_spend_usd
      · rw [if_pos g2] at hf; simp at hf
      · rw [if_neg g2] at hf
        by_cases g3 : (consume_asks_for_buy ob cfg.buy_chunk_usd).1 ≤ 0 ∨
            (consume_asks_for_buy ob cfg.buy_chunk_usd).2.2 ≤ 0
        · rw [if_pos g3] at hf; simp at hf
        · rw [if_neg g3] at hf
          by_cases g4 : pp.avg_price + (consume_asks_for_buy ob cfg.buy_chunk_usd).2.1 ≥
              cfg.sum_cap_dollars
          · rw [if_pos g4] at hf; simp at hf
          · rw [if_neg g4] at hf
            simp only [List.mem_append] at hf
            rcases hf with hf | hf
            · have hsome : (maybe_buy cfg ht ob acct cfg.buy_chunk_usd
                  ("hedge_chunk_sumcap_ok")).2 = some f := by
                rcases hmb : (maybe_buy cfg ht ob acct cfg.buy_chunk_usd
                    ("hedge_chunk_sumcap_ok")).2 with _ | f0
                · rw [hmb] at hf; simp at hf
                · rw [hmb] at hf; simp at hf; rw [hf]
              have hc := maybe_buy_some_eq cfg ht ob acct cfg.buy_chunk_usd _ f hsome
              have hprice : f.price = (consume_asks_for_buy ob cfg.buy_chunk_usd).2.1 := by
                rw [hc.2.2.1]
              rw [hprice]
              exact lt_of_not_ge g4
            · have hpt : posGet (maybe_buy cfg ht ob acct cfg.buy_chunk_usd
                  ("hedge_chunk_sumcap_ok")).1.positions pt = pp := by
                rw [maybe_buy_positions_ne cfg ht pt ob acct cfg.buy_chunk_usd _ hne]
                exact hp1
              have hconc := ih _ _ _ rfl f hf
              rw [hpt] at hconc
              exact hconc
    · rw [if_neg g1] at hf; simp at hf

theorem hedge_chunks_go_cost (cfg : StrategyConfig) (pt ht : String) (ob : OrderBook)
    (hne : ht ≠ pt) :
    ∀ (fuel : ℕ) (pp hp : Position) (acct : PaperAccount),
    posGet acct.positions pt = pp → posGet acct.positions ht = hp →
    posGet (hedge_chunks_go cfg pt ht ob fuel pp hp acct).1.positions pt = pp ∧
    ((posGet (hedge_chunks_go cfg pt ht ob fuel pp hp acct).1.positions ht).cost_usd <
       pp.cost_usd + cfg.buy_chunk_usd ∨
     posGet (hedge_chunks_go cfg pt ht ob fuel pp hp acct).1.positions ht = hp) ∧
    ((hedge_chunks_go cfg pt ht ob fuel pp hp acct).2.1 ≠ [] →
       hp.cost_usd + eps < pp.cost_usd) := by
  intro fuel
  induction fuel with
  | zero =>
    intro pp hp acct hp1 hh1
    refine ⟨hp1, Or.inr hh1, ?_⟩
    intro hne2; simp [hedge_chunks_go] at hne2
  | succ n ih =>
    intro pp hp acct hp1 hh1
    simp only [hedge_chunks_go]
    by_cases g1 : hp.cost_usd + eps < pp.cost_usd
    · rw [if_pos g1]
      by_cases g2 : hp.cost_usd ≥ cfg.max_side_spend_usd
      · rw [if_pos g2]; exact ⟨hp1, Or.inr hh1, fun h => absurd rfl h⟩
      · rw [if_neg g2]
        by_cases g3 : (consume_asks_for_buy ob cfg.buy_chunk_usd).1 ≤ 0 ∨
            (consume_asks_for_buy ob cfg.buy_chunk_usd).2.2 ≤ 0
        · rw [if_pos g3]; exact ⟨hp1, Or.inr hh1, fun h => absurd rfl h⟩
        · rw [if_neg g3]
          by_cases g4 : pp.avg_price + (consume_asks_for_buy ob cfg.buy_chunk_usd).2.1 ≥
              cfg.sum_cap_dollars
          · rw [if_pos g4]; exact ⟨hp1, Or.inr hh1, fun h => absurd rfl h⟩
          · rw [if_neg g4]
            rcases hmb : (maybe_buy cfg ht ob acct cfg.buy_chunk_usd
                ("hedge_chunk_sumcap_ok")).2 with _ | f
            · have hnoop := maybe_buy_none_noop cfg ht ob acct cfg.buy_chunk_usd _ hmb
              have hpt' : posGet (maybe_buy cfg ht ob acct cfg.buy_chunk_usd
                  ("hedge_chunk_sumcap_ok")).1.positions pt = pp := by rw [hnoop]; exact hp1
              have hht' : posGet (maybe_buy cfg ht ob acct cfg.buy_chunk_usd
                  ("hedge_chunk_sumcap_ok")).1.positions ht = hp := by rw [hnoop]; exact hh1
              have hrec := ih
                (posGet (maybe_buy cfg ht ob acct cfg.buy_chunk_usd
                  ("hedge_chunk_sumcap_ok")).1.positions pt)
                (posGet (maybe_buy cfg ht ob acct cfg.buy_chunk_usd
                  ("hedge_chunk_sumcap_ok")).1.positions ht)
                (maybe_buy cfg ht ob acct cfg.buy_chunk_usd
                  ("hedge_chunk_sumcap_ok")).1 rfl rfl
              refine ⟨?_, ?_, fun _ => g1⟩
              · rw [hrec.1, hpt']
              · rcases hrec.2.1 with h | h
                · left
                  refine lt_of_lt_of_le h (le_of_eq ?_)
                  rw [hpt']
                · right; rw [h, hht']
            · have hc := maybe_buy_some_eq cfg ht ob acct cfg.buy_chunk_usd _ f hmb
              have husd : 0 < cfg.buy_chunk_usd := by
                have := consume_shares_ne_usd_gt ob cfg.buy_chunk_usd hc.2.1
                have heps : (0 : ℚ) < eps := by norm_num [eps]
                linarith
              have hsp_le := consume_spent_le ob cfg.buy_chunk_usd (le_of_lt husd)
              have hpt' : posGet (maybe_buy cfg ht ob acct cfg.buy_chunk_usd
                  ("hedge_chunk_sumcap_ok")).1.positions pt = pp := by
                rw [maybe_buy_positions_ne cfg ht pt ob acct cfg.buy_chunk_usd _ hne]
                exact hp1
              have hht' : posGet (maybe_buy cfg ht ob acct cfg.buy_chunk_usd
                  ("hedge_chunk_sumcap_ok")).1.positions ht =
                  ⟨hp.shares + (consume_asks_for_buy ob cfg.buy_chunk_usd).1,
                   hp.cost_usd + (consume_asks_for_buy ob cfg.buy_chunk_usd).2.2⟩ := by
                rw [hc.2.2.2]
                simp only
                rw [posGet_posSet_self, hh1]
              have hrec := ih
                (posGet (maybe_buy cfg ht ob acct cfg.buy_chunk_usd
                  ("hedge_chunk_sumcap_ok")).1.positions pt)
                (posGet (maybe_buy cfg ht ob acct cfg.buy_chunk_usd
                  ("hedge_chunk_sumcap_ok")).1.positions ht)
                (maybe_buy cfg ht ob acct cfg.buy_chunk_usd
                  ("hedge_chunk_sumcap_ok")).1 rfl rfl
              refine ⟨?_, ?_, fun _ => g1⟩
              · rw [hrec.1, hpt']
              · rcases hrec.2.1 with h | h
                · left
                  refine lt_of_lt_of_le h (le_of_eq ?_)
                  rw [hpt']
                · left
                  rw [h, hht']
                  simp only
                  have heps : (0 : ℚ) < eps := by norm_num [eps]
                  linarith
    · rw [if_neg g1]
      exact ⟨hp1, Or.inr hh1, fun h => absurd rfl h⟩

/-- The DCA threshold sequence on one side of one market: start at the
configured entry price and, at each trigger, replace the threshold by
`clamp(threshold - step, 0.01, 0.99)` as `_dca_if_trigger` does. -/
def dcaSeq (step0 t0 : ℚ) : ℕ → ℚ
  | 0 => t0
  | n + 1 => clamp (dcaSeq step0 t0 n - step0) (1/100) (99/100)

theorem clamp_lo_le (n lo hi : ℚ) : lo ≤ clamp n lo hi := le_max_left _ _

theorem clamp_le_hi (n lo hi : ℚ) (h : lo ≤ hi) : clamp n lo hi ≤ hi :=
  max_le h (min_le_left _ _)

theorem clamp_le_self (t step0 : ℚ) (hs : 0 ≤ step0) (ht : 1/100 ≤ t) :
    clamp (t - step0) (1/100) (99/100) ≤ t := by
  unfold clamp
  apply max_le ht
  calc min (99/100) (t - step0) ≤ t - step0 := min_le_right _ _
  _ ≤ t := by linarith

theorem dcaSeq_lo (step0 t0 : ℚ) (n : ℕ) : 1/100 ≤ dcaSeq step0 t0 (n + 1) :=
  clamp_lo_le _ _ _

theorem dcaSeq_hi (step0 t0 : ℚ) (n : ℕ) : dcaSeq step0 t0 (n + 1) ≤ 99/100 :=
  clamp_le_hi _ _ _ (by norm_num)

theorem dcaSeq_mono (step0 t0 : ℚ) (hs : 0 ≤ step0) (ht : 1/100 ≤ t0) :
    ∀ n, dcaSeq step0 t0 (n + 1) ≤ dcaSeq step0 t0 n := by
  intro n
  cases n with
  | zero => exact clamp_le_self t0 step0 hs ht
  | succ m => exact clamp_le_self _ step0 hs (dcaSeq_lo step0 t0 m)

theorem incrBuys_threshold (st : EngineState) (s s' : Side) :
    (st.incrBuys s).threshold s' = st.threshold s' := by
  cases s <;> cases s' <;> rfl

theorem setThreshold_threshold_self (st : EngineState) (s : Side) (v : ℚ) :
    (st.setThreshold s v).threshold s = v := by
  cases s <;> rfl

theorem dca_threshold_update (cfg : StrategyConfig) (side_label : Side) (token_id : String)
    (ob : OrderBook) (best_ask : ℚ) (st : EngineState) (acct : PaperAccount) :
    (dca_if_trigger cfg side_label token_id ob best_ask st acct).1.threshold side_label =
        st.threshold side_label ∨
      (dca_if_trigger cfg side_label token_id ob best_ask st acct).1.threshold side_label =
        clamp (st.threshold side_label - cfg.dca_step_cents / 100) (1/100) (99/100) := by
  simp only [dca_if_trigger]
  split_ifs with g1 g2 g3
  · exact Or.inl rfl
  · right
    exact setThreshold_threshold_self _ side_label _
  · exact Or.inl rfl
  · exact Or.inl rfl

theorem alist_find_map_snd {α β : Type} (f : α → β) (l : List (String × α)) (k : String) :
    alist_find (l.map (fun sa => (sa.1, f sa.2))) k = (alist_find l k).map f := by
  induction l with
  | nil => rfl
  | cons hd tl ih =>
    obtain ⟨k0, v0⟩ := hd
    by_cases h : k0 = k
    · simp [alist_find, h]
    · simpa [alist_find, h] using ih

theorem alist_find_self_map {α : Type} (g : String → α) (l : List String) (k : String)
    (h : k ∈ l) : alist_find (l.map (fun s => (s, g s))) k = some (g k) := by
  induction l with
  | nil => simp at h
  | cons hd tl ih =>
    by_cases h0 : hd = k
    · subst h0; simp [alist_find]
    · have : k ∈ tl := by
        rcases List.mem_cons.mp h with h1 | h1
        · exact absurd h1.symm h0
        · exact h1
      simpa [alist_find, h0] using ih this

theorem posSet_append_of_absent (acc : List (String × Position)) (k : String) (v : Position)
    (h : alist_find acc k = none) : posSet acc k v = acc ++ [(k, v)] := by
  induction acc with
  | nil => rfl
  | cons hd tl ih =>
    obtain ⟨k0, v0⟩ := hd
    by_cases h0 : k0 = k
    · simp [alist_find, h0] at h
    · simp only [alist_find, if_neg h0] at h
      simp [posSet, h0, ih h]

theorem alist_find_append_right (acc tail0 : List (String × Position)) (k : String)
    (h : alist_find acc k = none) :
    alist_find (acc ++ tail0) k = alist_find tail0 k := by
  induction acc with
  | nil => rfl
  | cons hd tl ih =>
    obtain ⟨k0, v0⟩ := hd
    by_cases h0 : k0 = k
    · simp [alist_find, h0] at h
    · simp only [alist_find, if_neg h0] at h
      simpa [alist_find, h0] using ih h

theorem foldl_posSet_append (l : List (String × Position)) :
    ∀ (acc : List (String × Position)),
    (l.map Prod.fst).Nodup →
    (∀ kv ∈ l, alist_find acc kv.1 = none) →
    l.foldl (fun m kv => posSet m kv.1 kv.2) acc = acc ++ l := by
  induction l with
  | nil => intro acc _ _; simp
  | cons hd tl ih =>
    intro acc hnd habs
    obtain ⟨k0, v0⟩ := hd
    have hk0 : alist_find acc k0 = none := habs (k0, v0) (List.mem_cons_self _ _)
    simp only [List.foldl_cons]
    rw [posSet_append_of_absent acc k0 v0 hk0]
    have hnd' : (tl.map Prod.fst).Nodup := by
      simp only [List.map_cons, List.nodup_cons] at hnd
      exact hnd.2
    have hk0nin : k0 ∉ tl.map Prod.fst := by
      simp only [List.map_cons, List.nodup_cons] at hnd
      exact hnd.1
    have habs' : ∀ kv ∈ tl, alist_find (acc ++ [(k0, v0)]) kv.1 = none := by
      intro kv hkv
      have h1 : alist_find acc kv.1 = none := habs kv (List.mem_cons_of_mem _ hkv)
      rw [alist_find_append_right acc [(k0, v0)] kv.1 h1]
      have hne : k0 ≠ kv.1 := by
        intro hcontra
        exact hk0nin (hcontra ▸ List.mem_map_of_mem Prod.fst hkv)
      simp [alist_find, hne]
    rw [ih (acc ++ [(k0, v0)]) hnd' habs']
    simp

/-- C1: the order simulation walks the ask levels in ascending (list)
order, consuming `min(level.size, remaining/price)` shares per level
until the budget is exhausted (within the 1e-9 tolerance) or levels run
out; the average price equals total spent / total shares; zero achievable
shares means zero spend and zero average (a no-op); and consuming asks
[(0.10, 5), (0.12, 10)] against a $1.10 budget yields exactly 10 shares
at average price 0.11 having spent $1.10. -/
theorem consume_asks_spec_C1 :
    consume_asks_for_buy ⟨[], [(1/10, 5), (12/100, 10)]⟩ (11/10) = (10, 11/100, 11/10) ∧
    (∀ (ob : OrderBook) (usd : ℚ), 0 < (consume_asks_for_buy ob usd).1 →
      (consume_asks_for_buy ob usd).2.1 =
        (consume_asks_for_buy ob usd).2.2 / (consume_asks_for_buy ob usd).1) ∧
    (∀ (ob : OrderBook) (usd : ℚ), (consume_asks_for_buy ob usd).1 = 0 →
      (consume_asks_for_buy ob usd).2.2 = 0 ∧ (consume_asks_for_buy ob usd).2.1 = 0) ∧
    (∀ (price size : ℚ) (rest : List (ℚ × ℚ)) (remaining shares spent : ℚ),
      ¬ remaining ≤ eps → 0 < price → 0 < min size (remaining / price) →
      consumeLoop ((price, size) :: rest) remaining shares spent =
        consumeLoop rest (remaining - min size (remaining / price) * price)
          (shares + min size (remaining / price))
          (spent + min size (remaining / price) * price)) ∧
    (∀ (levels : List (ℚ × ℚ)) (remaining shares spent : ℚ), remaining ≤ eps →
      consumeLoop levels remaining shares spent = (remaining, shares, spent)) := by
  refine ⟨?_, ?_, ?_, ?_, consumeLoop_stop⟩
  · norm_num [consume_asks_for_buy, consumeLoop, eps]
  · exact consume_avg_eq
  · intro ob usd h
    refine ⟨(consume_shares_zero_iff ob usd).mp h, ?_⟩
    simp only [consume_asks_for_buy] at h ⊢
    rw [if_neg (by rw [h]; exact lt_irrefl 0)]
  · intro price size rest remaining shares spent h1 h2 h3
    rw [consumeLoop_cons, if_neg h1, if_neg (not_le_of_lt h2), if_neg (not_le_of_lt h3)]

/-- C1 witness: the average-price relation instantiated on the concrete
two-level book of the spec's example. -/
theorem consume_asks_spec_C1_witness :
    (consume_asks_for_buy ⟨[], [(1/10, 5), (12/100, 10)]⟩ (11/10)).2.1 =
      (consume_asks_for_buy ⟨[], [(1/10, 5), (12/100, 10)]⟩ (11/10)).2.2 /
        (consume_asks_for_buy ⟨[], [(1/10, 5), (12/100, 10)]⟩ (11/10)).1 :=
  consume_asks_spec_C1.2.1 ⟨[], [(1/10, 5), (12/100, 10)]⟩ (11/10)
    (by norm_num [consume_asks_for_buy, consumeLoop, eps])

/-- C4: for every pre-settlement account and every decided winner,
settlement zeroes both outcome positions, credits cash by exactly the
winning side's pre-settlement shares × 1.0, and records
pnl = redemption − (UP cost + DOWN cost). -/
theorem settle_market_spec_C4 (mkt : ActiveMarket) (winner : Side) (acct : PaperAccount) :
    posGet (settle_market mkt winner acct).1.positions mkt.up_token = ⟨0, 0⟩ ∧
    posGet (settle_market mkt winner acct).1.positions mkt.down_token = ⟨0, 0⟩ ∧
    (settle_market mkt winner acct).1.cash = acct.cash +
      (if winner = Side.UP then (posGet acct.positions mkt.up_token).shares
       else (posGet acct.positions mkt.down_token).shares) * 1 ∧
    (settle_market mkt winner acct).2.pnl =
      (if winner = Side.UP then (posGet acct.positions mkt.up_token).shares
       else (posGet acct.positions mkt.down_token).shares) * 1 -
      ((posGet acct.positions mkt.up_token).cost_usd +
       (posGet acct.positions mkt.down_token).cost_usd) := by
  refine ⟨?_, ?_, rfl, rfl⟩
  · by_cases h : mkt.down_token = mkt.up_token
    · simp only [settle_market]
      rw [h, posGet_posSet_self]
    · simp only [settle_market]
      rw [posGet_posSet_ne _ _ _ _ h, posGet_posSet_self]
  · simp only [settle_market]
    rw [posGet_posSet_self]

/-- C5: when neither book's best bid reaches the settlement-signal
threshold (a missing bid never reaches it), the settlement decision is
the forced comparison of best bids: strictly higher best bid wins
(missing bids counting as 0), and an exact tie — including both bids
absent — resolves to the fixed default side UP. -/
theorem forced_settlement_spec_C5 (up_ob down_ob : OrderBook) (sig : ℚ)
    (h1 : ∀ b ∈ up_ob.best_bid, b < sig) (h2 : ∀ b ∈ down_ob.best_bid, b < sig) :
    settle_decide up_ob down_ob sig = force_pick_winner up_ob down_ob ∧
    (up_ob.best_bid.getD 0 > down_ob.best_bid.getD 0 →
      force_pick_winner up_ob down_ob = Side.UP) ∧
    (down_ob.best_bid.getD 0 > up_ob.best_bid.getD 0 →
      force_pick_winner up_ob down_ob = Side.DOWN) ∧
    (up_ob.best_bid.getD 0 = down_ob.best_bid.getD 0 →
      force_pick_winner up_ob down_ob = Side.UP) := by
  have hpick : pick_winner_from_book up_ob down_ob sig = none := by
    unfold pick_winner_from_book
    rcases hub : up_ob.best_bid with _ | ub
    · rfl
    · rcases hdb : down_ob.best_bid with _ | db
      · rfl
      · have hu : ub < sig := h1 ub (by rw [hub]; rfl)
        have hd : db < sig := h2 db (by rw [hdb]; rfl)
        dsimp only
        rw [if_neg (show ¬ ub ≥ sig from not_le_of_lt hu),
          if_neg (show ¬ db ≥ sig from not_le_of_lt hd)]
  refine ⟨?_, ?_, ?_, ?_⟩
  · unfold settle_decide
    rw [hpick]
  · intro h
    unfold force_pick_winner
    rw [if_pos h]
  · intro h
    unfold force_pick_winner
    rw [if_neg (by linarith), if_pos h]
  · intro h
    unfold force_pick_winner
    rw [if_neg (by rw [h]; exact lt_irrefl _), if_neg (by rw [h]; exact lt_irrefl _)]

/-- C5 witness: both books empty — no bid reaches the 0.99 signal, the
forced comparison runs, and the 0-vs-0 tie resolves to UP. -/
theorem forced_settlement_spec_C5_witness :
    settle_decide ⟨[], []⟩ ⟨[], []⟩ (99/100) = force_pick_winner ⟨[], []⟩ ⟨[], []⟩ ∧
    force_pick_winner ⟨[], []⟩ ⟨[], []⟩ = Side.UP := by
  have h := forced_settlement_spec_C5 ⟨[], []⟩ ⟨[], []⟩ (99/100)
    (by intro b hb; simp [OrderBook.best_bid] at hb)
    (by intro b hb; simp [OrderBook.best_bid] at hb)
  exact ⟨h.1, h.2.2.2 rfl⟩

/-- C6: a simulated buy is a no-op — account unchanged, no Fill — when
cash is below budget + reserve or the ask walk yields zero shares; in
every other case it debits cash by exactly the spent amount, credits the
token's position by exactly the filled shares and spent cost, and emits
exactly one Fill.  No error state exists: the function is total and the
rejection is the same no-op shape. -/
theorem maybe_buy_spec_C6 (cfg : StrategyConfig) (token_id : String) (ob : OrderBook)
    (acct : PaperAccount) (usd : ℚ) (note : String) :
    ((acct.cash < usd + cfg.require_free_cash ∨ (consume_asks_for_buy ob usd).1 = 0) →
      maybe_buy cfg token_id ob acct usd note = (acct, none)) ∧
    (¬ acct.cash < usd + cfg.require_free_cash → (consume_asks_for_buy ob usd).1 ≠ 0 →
      maybe_buy cfg token_id ob acct usd note =
        ({ symbol := acct.symbol,
           cash := acct.cash - (consume_asks_for_buy ob usd).2.2,
           positions := posSet acct.positions token_id
             ⟨(posGet acct.positions token_id).shares + (consume_asks_for_buy ob usd).1,
              (posGet acct.positions token_id).cost_usd + (consume_asks_for_buy ob usd).2.2⟩ },
         some { token_id := token_id, side := ("BUY"),
                price := (consume_asks_for_buy ob usd).2.1,
                shares := (consume_asks_for_buy ob usd).1,
                usd := (consume_asks_for_buy ob usd).2.2, note := note })) := by
  constructor
  · rintro (h | h)
    · exact maybe_buy_none_of_cash cfg token_id ob acct usd note h
    · exact maybe_buy_none_of_zero_shares cfg token_id ob acct usd note h
  · intro hcash hsh
    exact maybe_buy_pos_eq cfg token_id ob acct usd note hcash hsh

/-- C6 witness: a rejected buy on an empty account is the exact no-op,
and an accepted buy on the spec's example book emits a Fill. -/
theorem maybe_buy_spec_C6_witness :
    maybe_buy defaultConfig ("T") ⟨[], []⟩ ⟨("BTC"), 0, []⟩ 1 ("n0") =
      (⟨("BTC"), 0, []⟩, none) ∧
    ((maybe_buy defaultConfig ("T") ⟨[], [(1/10, 5), (12/100, 10)]⟩
        ⟨("BTC"), 100, []⟩ (11/10) ("n1")).2).isSome := by
  constructor
  · exact (maybe_buy_spec_C6 defaultConfig ("T") ⟨[], []⟩ ⟨("BTC"), 0, []⟩ 1 ("n0")).1
      (Or.inl (by norm_num [defaultConfig]))
  · rw [(maybe_buy_spec_C6 defaultConfig ("T") ⟨[], [(1/10, 5), (12/100, 10)]⟩
        ⟨("BTC"), 100, []⟩ (11/10) ("n1")).2
      (by norm_num [defaultConfig])
      (by norm_num [consume_asks_for_buy, consumeLoop, eps])]
    rfl

/-- C7: each DCA trigger either leaves a side's threshold unchanged (no
trigger) or replaces it by clamp(threshold − dca_step, 0.01, 0.99); every
threshold stored by a trigger lies in [0.01, 0.99]; and for a
non-negative step and an entry threshold ≥ 0.01 the trigger sequence is
non-increasing. -/
theorem dca_thresholds_spec_C7 :
    (∀ (cfg : StrategyConfig) (side_label : Side) (token_id : String) (ob : OrderBook)
       (best_ask : ℚ) (st : EngineState) (acct : PaperAccount),
      (dca_if_trigger cfg side_label token_id ob best_ask st acct).1.threshold side_label =
          st.threshold side_label ∨
        (dca_if_trigger cfg side_label token_id ob best_ask st acct).1.threshold side_label =
          clamp (st.threshold side_label - cfg.dca_step_cents / 100) (1/100) (99/100)) ∧
    (∀ (step0 t0 : ℚ) (n : ℕ),
      1/100 ≤ dcaSeq step0 t0 (n + 1) ∧ dcaSeq step0 t0 (n + 1) ≤ 99/100) ∧
    (∀ (step0 t0 : ℚ), 0 ≤ step0 → 1/100 ≤ t0 →
      ∀ n, dcaSeq step0 t0 (n + 1) ≤ dcaSeq step0 t0 n) :=
  ⟨dca_threshold_update,
   fun step0 t0 n => ⟨dcaSeq_lo step0 t0 n, dcaSeq_hi step0 t0 n⟩,
   dcaSeq_mono⟩

/-- C7 witness: with the default step 0.05 and entry threshold 0.35, the
first DCA step does not increase the threshold. -/
theorem dca_thresholds_spec_C7_witness :
    dcaSeq (5/100) (35/100) 1 ≤ dcaSeq (5/100) (35/100) 0 :=
  dca_thresholds_spec_C7.2.2 (5/100) (35/100) (by norm_num) (by norm_num) 0

/-- C9: strategy logic never drives cash negative.  A buy goes through
only when cash ≥ budget + reserve, spends at most the budget, and with a
non-negative reserve preserves cash ≥ 0; the DCA trigger, the hedge
accumulation loop and a full engine step in either mode preserve
cash ≥ 0; settlement only credits cash (winning shares being
non-negative). -/
theorem cash_nonneg_C9 :
    (∀ (cfg : StrategyConfig) (token_id : String) (ob : OrderBook) (acct : PaperAccount)
       (usd : ℚ) (note : String), ((maybe_buy cfg token_id ob acct usd note).2).isSome →
      usd + cfg.require_free_cash ≤ acct.cash) ∧
    (∀ (cfg : StrategyConfig) (token_id : String) (ob : OrderBook) (acct : PaperAccount)
       (usd : ℚ) (note : String), 0 ≤ usd →
      acct.cash - usd ≤ (maybe_buy cfg token_id ob acct usd note).1.cash) ∧
    (∀ (cfg : StrategyConfig) (token_id : String) (ob : OrderBook) (acct : PaperAccount)
       (usd : ℚ) (note : String), 0 ≤ cfg.require_free_cash → 0 ≤ acct.cash →
      0 ≤ (maybe_buy cfg token_id ob acct usd note).1.cash) ∧
    (∀ (cfg : StrategyConfig) (side_label : Side) (token_id : String) (ob : OrderBook)
       (best_ask : ℚ) (st : EngineState) (acct : PaperAccount),
      0 ≤ cfg.require_free_cash → 0 ≤ acct.cash →
      0 ≤ (dca_if_trigger cfg side_label token_id ob best_ask st acct).2.1.cash) ∧
    (∀ (cfg : StrategyConfig) (pt ht : String) (pp hp : Position) (ob : OrderBook)
       (ask : ℚ) (acct : PaperAccount) (fuel : ℕ),
      0 ≤ cfg.require_free_cash → 0 ≤ acct.cash →
      0 ≤ (hedge_chunks cfg pt ht pp hp ob ask acct fuel).1.cash) ∧
    (∀ (cfg : StrategyConfig) (mode : Mode) (mkt : ActiveMarket) (up_ob down_ob : OrderBook)
       (st : EngineState) (acct : PaperAccount) (fuel : ℕ),
      0 ≤ cfg.require_free_cash → 0 ≤ acct.cash →
      0 ≤ (step cfg mode mkt up_ob down_ob st acct fuel).2.cash) ∧
    (∀ (mkt : ActiveMarket) (winner : Side) (acct : PaperAccount), 0 ≤ acct.cash →
      0 ≤ (posGet acct.positions mkt.up_token).shares →
      0 ≤ (posGet acct.positions mkt.down_token).shares →
      0 ≤ (settle_market mkt winner acct).1.cash) :=
  ⟨maybe_buy_requires_cash, maybe_buy_cash_lb, maybe_buy_cash_nonneg, dca_cash_nonneg,
   fun cfg pt ht pp hp ob ask acct fuel =>
     hedge_chunks_cash_nonneg cfg pt ht pp hp ob ask acct fuel,
   step_cash_nonneg, settle_cash_nonneg⟩

/-- C9 witness: a buy out of $100 with the default config keeps cash
non-negative, and settling an empty account keeps cash non-negative. -/
theorem cash_nonneg_C9_witness :
    0 ≤ (maybe_buy defaultConfig ("T") ⟨[], [(1/10, 5)]⟩ ⟨("BTC"), 100, []⟩ 1
      ("n")).1.cash ∧
    0 ≤ (settle_market ⟨("U"), ("D")⟩ Side.UP ⟨("BTC"), 0, []⟩).1.cash := by
  constructor
  · exact cash_nonneg_C9.2.2.1 defaultConfig ("T") ⟨[], [(1/10, 5)]⟩ ⟨("BTC"), 100, []⟩ 1
      ("n") (by norm_num [defaultConfig]) (by norm_num)
  · exact cash_nonneg_C9.2.2.2.2.2.2 ⟨("U"), ("D")⟩ Side.UP ⟨("BTC"), 0, []⟩
      (by norm_num) (by norm_num [posGet, alist_find]) (by norm_num [posGet, alist_find])

/-- C10: the hedge loop performs a buy only from a state whose hedge-side
cost is strictly (by more than the 1e-9 tolerance) below the primary-side
cost, and consequently leaves the hedge-side cost either unchanged or
strictly below the primary-side cost plus one chunk's budget — an
undocumented stop condition of the loop. -/
theorem hedge_stop_condition_C10 (cfg : StrategyConfig) (pt ht : String)
    (pp hp : Position) (ob : OrderBook) (ask : ℚ) (acct : PaperAccount) (fuel : ℕ)
    (hne : ht ≠ pt) (hp1 : posGet acct.positions pt = pp)
    (hh1 : posGet acct.positions ht = hp) :
    ((hedge_chunks cfg pt ht pp hp ob ask acct fuel).2.1 ≠ [] →
      hp.cost_usd + eps < pp.cost_usd) ∧
    ((posGet (hedge_chunks cfg pt ht pp hp ob ask acct fuel).1.positions ht).cost_usd <
        pp.cost_usd + cfg.buy_chunk_usd ∨
      posGet (hedge_chunks cfg pt ht pp hp ob ask acct fuel).1.positions ht = hp) := by
  unfold hedge_chunks
  split_ifs with g
  · exact ⟨fun h => absurd rfl h, Or.inr hh1⟩
  · have h := hedge_chunks_go_cost cfg pt ht ob hne fuel pp hp acct hp1 hh1
    exact ⟨h.2.2, h.2.1⟩

/-- C10 witness: instantiated on a concrete account holding only a
primary position, with zero fuel. -/
theorem hedge_stop_condition_C10_witness :
    ((hedge_chunks defaultConfig ("P") ("H") ⟨2, 1⟩ ⟨0, 0⟩ ⟨[], []⟩ (1/10)
        ⟨("BTC"), 100, [(("P"), ⟨2, 1⟩)]⟩ 0).2.1 ≠ [] →
      (Position.mk 0 0).cost_usd + eps < (Position.mk 2 1).cost_usd) ∧
    ((posGet (hedge_chunks defaultConfig ("P") ("H") ⟨2, 1⟩ ⟨0, 0⟩ ⟨[], []⟩ (1/10)
          ⟨("BTC"), 100, [(("P"), ⟨2, 1⟩)]⟩ 0).1.positions ("H")).cost_usd <
        (Position.mk 2 1).cost_usd + defaultConfig.buy_chunk_usd ∨
      posGet (hedge_chunks defaultConfig ("P") ("H") ⟨2, 1⟩ ⟨0, 0⟩ ⟨[], []⟩ (1/10)
          ⟨("BTC"), 100, [(("P"), ⟨2, 1⟩)]⟩ 0).1.positions ("H") = ⟨0, 0⟩) :=
  hedge_stop_condition_C10 defaultConfig ("P") ("H") ⟨2, 1⟩ ⟨0, 0⟩ ⟨[], []⟩ (1/10)
    ⟨("BTC"), 100, [(("P"), ⟨2, 1⟩)]⟩ 0
    (by decide)
    (by norm_num +decide [posGet, alist_find])
    (by norm_num +decide [posGet, alist_find])

/-- C2 counterexample: a hedge buy performed by the loop against the
default 0.99 cap.  Primary position (5 shares, $0.911); pre-existing
hedge position (1 share, $0.90); hedge book one thin ask level
(price 0.10, size 0.10).  The loop performs two chunk buys of 0.1 shares
for $0.01 each, yet already after the first chunk the primary average
plus the hedge position's projected post-chunk average,
0.1822 + (0.90+0.01)/(1+0.1) ≈ 1.0095, is not below the 0.99 cap: the
code only checks the chunk's own average (0.1822 + 0.10). -/
theorem hedge_projected_cap_counterexample_C2 :
    (hedge_chunks defaultConfig ("P") ("H") ⟨5, 911/1000⟩ ⟨1, 9/10⟩
        ⟨[], [(1/10, 1/10)]⟩ (1/10)
        ⟨("BTC"), 100, [(("P"), ⟨5, 911/1000⟩), (("H"), ⟨1, 9/10⟩)]⟩ 3).2 =
      ([{ token_id := ("H"), side := ("BUY"), price := 1/10, shares := 1/10,
          usd := 1/100, note := ("hedge_chunk_sumcap_ok") },
        { token_id := ("H"), side := ("BUY"), price := 1/10, shares := 1/10,
          usd := 1/100, note := ("hedge_chunk_sumcap_ok") }], true) ∧
    ¬ Position.avg_price ⟨5, 911/1000⟩ +
        ((Position.mk 1 (9/10)).cost_usd + 1/100) / ((Position.mk 1 (9/10)).shares + 1/10) <
        defaultConfig.sum_cap_dollars := by
  constructor
  · norm_num +decide [hedge_chunks, hedge_chunks_go, maybe_buy, consume_asks_for_buy,
      consumeLoop, posGet, posSet, alist_find, defaultConfig, eps, Position.avg_price]
  · norm_num [Position.avg_price, defaultConfig]

/-- C2 amended: every hedge buy performed by the loop satisfies
(primary side's average price) + (the chunk's own simulated average
price, which is the price of the emitted Fill) < the combined-price cap;
the projection the code checks is the chunk's average, not the hedge
position's post-chunk average. -/
theorem hedge_chunk_cap_amended_C2 (cfg : StrategyConfig) (pt ht : String)
    (pp hp : Position) (ob : OrderBook) (ask : ℚ) (acct : PaperAccount) (fuel : ℕ)
    (hne : ht ≠ pt) (hp1 : posGet acct.positions pt = pp) :
    ∀ f ∈ (hedge_chunks cfg pt ht pp hp ob ask acct fuel).2.1,
      pp.avg_price + f.price < cfg.sum_cap_dollars := by
  unfold hedge_chunks
  split_ifs with g
  · intro f hf
    simp at hf
  · exact hedge_chunks_go_fills_cap cfg pt ht ob hne fuel pp hp acct hp1

/-- C2 amended witness: one performed hedge chunk under the default
config respects primary average + chunk average < 0.99. -/
theorem hedge_chunk_cap_amended_C2_witness :
    Position.avg_price ⟨1, 1/2⟩ +
      (Fill.mk ("H") ("BUY") (1/10) 10 1 ("hedge_chunk_sumcap_ok")).price <
      defaultConfig.sum_cap_dollars := by
  have h := hedge_chunk_cap_amended_C2 defaultConfig ("P") ("H") ⟨1, 1/2⟩ ⟨0, 0⟩
    ⟨[], [(1/10, 10)]⟩ (1/10) ⟨("BTC"), 100, [(("P"), ⟨1, 1/2⟩), (("H"), ⟨0, 0⟩)]⟩ 1
    (by decide) (by norm_num +decide [posGet, alist_find])
  apply h
  norm_num +decide [hedge_chunks, hedge_chunks_go, maybe_buy, consume_asks_for_buy,
    consumeLoop, posGet, posSet, alist_find, defaultConfig, eps, Position.avg_price]

/-- C3: a state on which the hedge loop never terminates.  Cash $0.50 is
below chunk + reserve ($1.05), so every `_maybe_buy` is rejected, yet all
of the loop's own continuation conditions keep holding (hedge cost 0 is
below primary cost 1, below the spend cap; the book fills a full chunk;
0.5 + 0.1 is below the 0.99 cap): for every fuel bound the loop neither
completes through one of its own exits (flag `false`) nor changes the
account, contradicting the claim that it stops as soon as a chunk buy
does not go through. -/
theorem hedge_loop_stuck_C3 : ∀ (fuel : ℕ),
    hedge_chunks defaultConfig ("P") ("H") ⟨2, 1⟩ ⟨0, 0⟩ ⟨[], [(1/10, 100)]⟩ (1/10)
      ⟨("BTC"), 1/2, [(("P"), ⟨2, 1⟩), (("H"), ⟨0, 0⟩)]⟩ fuel =
      (⟨("BTC"), 1/2, [(("P"), ⟨2, 1⟩), (("H"), ⟨0, 0⟩)]⟩, [], false) := by
  have hask : ¬ (1/10 : ℚ) > defaultConfig.entry_ask_cents / 100 := by
    norm_num [defaultConfig]
  have hgo : ∀ n, hedge_chunks_go defaultConfig ("P") ("H") ⟨[], [(1/10, 100)]⟩ n
      ⟨2, 1⟩ ⟨0, 0⟩ ⟨("BTC"), 1/2, [(("P"), ⟨2, 1⟩), (("H"), ⟨0, 0⟩)]⟩ =
      (⟨("BTC"), 1/2, [(("P"), ⟨2, 1⟩), (("H"), ⟨0, 0⟩)]⟩, [], false) := by
    intro n
    induction n with
    | zero => rfl
    | succ m ih =>
      have hmb : maybe_buy defaultConfig ("H") ⟨[], [(1/10, 100)]⟩
          ⟨("BTC"), 1/2, [(("P"), ⟨2, 1⟩), (("H"), ⟨0, 0⟩)]⟩ defaultConfig.buy_chunk_usd
          ("hedge_chunk_sumcap_ok") =
          (⟨("BTC"), 1/2, [(("P"), ⟨2, 1⟩), (("H"), ⟨0, 0⟩)]⟩, none) :=
        maybe_buy_none_of_cash _ _ _ _ _ _ (by norm_num [defaultConfig])
      have hest : consume_asks_for_buy ⟨[], [(1/10, 100)]⟩ defaultConfig.buy_chunk_usd =
          (10, 1/10, 1) := by
        norm_num [defaultConfig, consume_asks_for_buy, consumeLoop, eps]
      have hP : posGet [(("P"), (⟨2, 1⟩ : Position)), (("H"), ⟨0, 0⟩)] ("P") = ⟨2, 1⟩ := by
        norm_num +decide [posGet, alist_find]
      have hH : posGet [(("P"), (⟨2, 1⟩ : Position)), (("H"), ⟨0, 0⟩)] ("H") = ⟨0, 0⟩ := by
        norm_num +decide [posGet, alist_find]
      simp only [hedge_chunks_go]
      rw [if_pos (show (Position.mk 0 0).cost_usd + eps < (Position.mk 2 1).cost_usd by
        norm_num [eps])]
      rw [if_neg (show ¬ (Position.mk 0 0).cost_usd ≥ defaultConfig.max_side_spend_usd by
        norm_num [defaultConfig])]
      rw [hest]
      rw [if_neg (show ¬ (((10 : ℚ), (1/10 : ℚ), (1 : ℚ)).1 ≤ 0 ∨
        ((10 : ℚ), (1/10 : ℚ), (1 : ℚ)).2.2 ≤ 0) by norm_num)]
      rw [if_neg (show ¬ (Position.mk 2 1).avg_price + ((10 : ℚ), (1/10 : ℚ), (1 : ℚ)).2.1 ≥
        defaultConfig.sum_cap_dollars by norm_num [Position.avg_price, defaultConfig])]
      rw [hmb]
      dsimp only
      rw [hP, hH, ih]
      rfl
  intro fuel
  unfold hedge_chunks
  rw [if_neg hask]
  exact hgo fuel

/-- C8: the persistence round-trip.  Saving every per-symbol account and
loading the result back reproduces, for each configured symbol present in
the account map, exactly the same cash and exactly the same position map
(the saved token-id keys are unique, as Python dict keys are). -/
theorem persistence_roundtrip_C8 (symbols : List String) (start_balances : String → ℚ)
    (accounts : List (String × PaperAccount)) (sym : String) (a : PaperAccount)
    (hmem : sym ∈ symbols) (hlook : alist_find accounts sym = some a)
    (hnd : (a.positions.map Prod.fst).Nodup) :
    (alist_find (load_state symbols start_balances (some (save_state accounts))) sym).map
        PaperAccount.cash = some a.cash ∧
    (alist_find (load_state symbols start_balances (some (save_state accounts))) sym).map
        PaperAccount.positions = some a.positions := by
  have hblob : alist_find (save_state accounts) sym = some (to_dict a) := by
    unfold save_state
    rw [alist_find_map_snd to_dict accounts sym, hlook]
    rfl
  have hload : alist_find (load_state symbols start_balances (some (save_state accounts)))
      sym = some (from_dict (to_dict a) sym (start_balances sym)) := by
    unfold load_state
    rw [alist_find_self_map _ symbols sym hmem]
    dsimp only
    rw [hblob]
  have hpos : (from_dict (to_dict a) sym (start_balances sym)).positions = a.positions := by
    unfold from_dict to_dict
    dsimp only
    rw [foldl_posSet_append a.positions [] hnd (fun kv _ => rfl)]
    exact List.nil_append _
  rw [hload]
  constructor
  · rfl
  · show some ((from_dict (to_dict a) sym (start_balances sym)).positions) = some a.positions
    rw [hpos]

/-- C8 witness: a concrete one-symbol, one-position account round-trips
to the same cash and position map. -/
theorem persistence_roundtrip_C8_witness :
    (alist_find (load_state [("BTC")] (fun _ => 100)
        (some (save_state [(("BTC"),
          ⟨("BTC"), 95, [(("tokU"), ⟨3, 1⟩)]⟩)]))) ("BTC")).map
      PaperAccount.cash = some (PaperAccount.mk ("BTC") 95 [(("tokU"), ⟨3, 1⟩)]).cash ∧
    (alist_find (load_state [("BTC")] (fun _ => 100)
        (some (save_state [(("BTC"),
          ⟨("BTC"), 95, [(("tokU"), ⟨3, 1⟩)]⟩)]))) ("BTC")).map
      PaperAccount.positions =
        some (PaperAccount.mk ("BTC") 95 [(("tokU"), ⟨3, 1⟩)]).positions :=
  persistence_roundtrip_C8 [("BTC")] (fun _ => 100)
    [(("BTC"), ⟨("BTC"), 95, [(("tokU"), ⟨3, 1⟩)]⟩)] ("BTC")
    ⟨("BTC"), 95, [(("tokU"), ⟨3, 1⟩)]⟩
    (by simp)
    (by norm_num +decide [alist_find])
    (by simp)
